import Mathlib

/-!
Verification of the ball-eating data generator (`src/generator.py`).

The embedding models the generator's numeric state over `ℚ` (the Python code
computes with floats; all the algorithmic decisions are order comparisons and
field arithmetic, which `ℚ` reproduces exactly on the rational inputs used
here).  Randomness is made explicit: every `random.uniform` result consumed by
an algorithm becomes a parameter (a drawn value, or a list of drawn values),
so each Python function becomes a pure Lean function of its inputs and its
random draws.
-/

namespace BallEating

/-- Python `int(q)` on a real number: truncation toward zero. -/
def pyInt (q : ℚ) : ℤ := if 0 ≤ q then ⌊q⌋ else ⌈q⌉

/-! ## Eating sequence (`_compute_eating_sequence`, generator.py lines 215-258)

The Python loop keeps a set `remaining` of red-ball indices; we model it as a
`List ℕ` that carries the iteration order of the set.  `red_sizes[i]` is
modelled by `sizes.getD i 0`; all indices reaching it come from
`range (len red_sizes)`, so the default is never consulted on reachable
inputs.  Python's stable descending sort followed by taking the first
element selects the first index (in candidate order) attaining the maximal
size; `pickMax` computes exactly that element. -/

/-- First index among `c :: cs` whose size is maximal (later elements replace
the current best only when strictly larger, matching Python's stable sort). -/
def pickMax (sizes : List ℚ) (c : ℕ) (cs : List ℕ) : ℕ :=
  cs.foldl (fun best i => if sizes.getD best 0 < sizes.getD i 0 then i else best) c

/-- Minimum size over the indices `r :: rs` (the head of Python's
ascending-sorted candidate list in the fallback branch). -/
def min_size_of (sizes : List ℚ) (r : ℕ) (rs : List ℕ) : ℚ :=
  rs.foldl (fun m i => min m (sizes.getD i 0)) (sizes.getD r 0)

/-- The `while remaining:` loop of `_compute_eating_sequence`.  `fuel` bounds
the iteration count; the caller passes `remaining.length`, which suffices
because every iteration removes one element.  When no remaining ball fits
(`filter` empty), the code re-sorts all remaining balls ascending and checks
the smallest; if even it exceeds the eater it breaks and the trailing
`for red_idx in remaining` loop appends the leftovers (here: `remaining`
itself); otherwise it would eat the largest remaining ball (dead in practice,
modelled faithfully). -/
def eat_loop (sizes : List ℚ) (g : ℚ) : ℕ → List ℕ → ℚ → List ℕ
  | 0, remaining, _ => remaining
  | fuel + 1, remaining, cur =>
    match remaining.filter (fun i => decide (sizes.getD i 0 ≤ cur)) with
    | c :: cs =>
      pickMax sizes c cs ::
        eat_loop sizes g fuel (remaining.erase (pickMax sizes c cs)) (cur * g)
    | [] =>
      match remaining with
      | [] => []
      | r :: rs =>
        if cur < min_size_of sizes r rs then r :: rs
        else
          pickMax sizes r rs ::
            eat_loop sizes g fuel ((r :: rs).erase (pickMax sizes r rs)) (cur * g)

/-- `_compute_eating_sequence(initial_black_size, red_sizes, growth_factor)`. -/
def compute_eating_sequence (initial_black_size : ℚ) (red_sizes : List ℚ)
    (growth_factor : ℚ) : List ℕ :=
  eat_loop red_sizes growth_factor red_sizes.length
    (List.range red_sizes.length) initial_black_size

/-! ## Verification (`_verify_solvability`, generator.py lines 260-279) -/

/-- The replay loop of `_verify_solvability`: walk the eating order, failing
as soon as a red ball exceeds the current eater size, growing the eater by
`g` after each consumption. -/
def replay_ok (sizes : List ℚ) (g : ℚ) : List ℕ → ℚ → Bool
  | [], _ => true
  | i :: rest, cur => decide (sizes.getD i 0 ≤ cur) && replay_ok sizes g rest (cur * g)

/-- `_verify_solvability`: length check, then the replay loop. -/
def verify_solvability (initial_black_size : ℚ) (red_sizes : List ℚ)
    (eating_sequence : List ℕ) (growth_factor : ℚ) : Bool :=
  (eating_sequence.length == red_sizes.length) &&
    replay_ok red_sizes growth_factor eating_sequence initial_black_size

/-! ## Helper lemmas about `pickMax` and `eat_loop` -/

lemma pickMax_mem (sizes : List ℚ) (c : ℕ) (cs : List ℕ) :
    pickMax sizes c cs ∈ c :: cs := by
  induction cs generalizing c with
  | nil => simp [pickMax]
  | cons b bs ih =>
    have h : pickMax sizes c (b :: bs) =
        pickMax sizes (if sizes.getD c 0 < sizes.getD b 0 then b else c) bs := rfl
    rw [h]
    have h1 := ih (if sizes.getD c 0 < sizes.getD b 0 then b else c)
    rcases List.mem_cons.mp h1 with h2 | h2
    · rw [h2]
      by_cases hcb : sizes.getD c 0 < sizes.getD b 0
      · rw [if_pos hcb]
        exact List.mem_cons.mpr (Or.inr (List.mem_cons_self _ _))
      · rw [if_neg hcb]
        exact List.mem_cons_self _ _
    · exact List.mem_cons.mpr (Or.inr (List.mem_cons.mpr (Or.inr h2)))

lemma pickMax_maximal (sizes : List ℚ) (c : ℕ) (cs : List ℕ) :
    ∀ i ∈ c :: cs, sizes.getD i 0 ≤ sizes.getD (pickMax sizes c cs) 0 := by
  induction cs generalizing c with
  | nil =>
    intro i hi
    simp at hi
    simp [pickMax, hi]
  | cons b bs ih =>
    intro i hi
    have h : pickMax sizes c (b :: bs) =
        pickMax sizes (if sizes.getD c 0 < sizes.getD b 0 then b else c) bs := rfl
    rw [h]
    have hstep : sizes.getD c 0 ≤
        sizes.getD (if sizes.getD c 0 < sizes.getD b 0 then b else c) 0 ∧
        sizes.getD b 0 ≤
        sizes.getD (if sizes.getD c 0 < sizes.getD b 0 then b else c) 0 := by
      by_cases hcb : sizes.getD c 0 < sizes.getD b 0
      · rw [if_pos hcb]
        exact ⟨le_of_lt hcb, le_refl _⟩
      · rw [if_neg hcb]
        exact ⟨le_refl _, le_of_not_lt hcb⟩
    have hhead := ih (if sizes.getD c 0 < sizes.getD b 0 then b else c)
        _ (List.mem_cons_self _ _)
    rcases List.mem_cons.mp hi with rfl | hi2
    · exact le_trans hstep.1 hhead
    · rcases List.mem_cons.mp hi2 with rfl | hi3
      · exact le_trans hstep.2 hhead
      · exact ih _ _ (List.mem_cons.mpr (Or.inr hi3))

/-- One-step unfolding of `eat_loop` at positive fuel. -/
lemma eat_loop_succ (sizes : List ℚ) (g : ℚ) (fuel : ℕ) (remaining : List ℕ)
    (cur : ℚ) :
    eat_loop sizes g (fuel + 1) remaining cur =
      match remaining.filter (fun i => decide (sizes.getD i 0 ≤ cur)) with
      | c :: cs =>
        pickMax sizes c cs ::
          eat_loop sizes g fuel (remaining.erase (pickMax sizes c cs)) (cur * g)
      | [] =>
        match remaining with
        | [] => []
        | r :: rs =>
          if cur < min_size_of sizes r rs then r :: rs
          else
            pickMax sizes r rs ::
              eat_loop sizes g fuel ((r :: rs).erase (pickMax sizes r rs)) (cur * g) :=
  rfl

/-- `eat_loop` always returns a permutation of the remaining indices, for any
fuel: every eaten index is removed from `remaining`, and the break path
appends all leftovers. -/
lemma eat_loop_perm (sizes : List ℚ) (g : ℚ) :
    ∀ (fuel : ℕ) (remaining : List ℕ) (cur : ℚ),
      List.Perm (eat_loop sizes g fuel remaining cur) remaining := by
  intro fuel
  induction fuel with
  | zero => intro remaining cur; exact List.Perm.refl _
  | succ fuel ih =>
    intro remaining cur
    rw [eat_loop_succ]
    split
    · rename_i c cs heq
      have hj : pickMax sizes c cs ∈ remaining := by
        have hmem : pickMax sizes c cs ∈ c :: cs := pickMax_mem sizes c cs
        rw [← heq] at hmem
        exact (List.mem_filter.mp hmem).1
      exact List.Perm.trans
        (List.Perm.cons _ (ih (remaining.erase (pickMax sizes c cs)) (cur * g)))
        (List.perm_cons_erase hj).symm
    · split
      · exact List.Perm.refl _
      · rename_i r rs heq0
        split
        · exact List.Perm.refl _
        · have hj : pickMax sizes r rs ∈ r :: rs := pickMax_mem sizes r rs
          exact List.Perm.trans
            (List.Perm.cons _ (ih ((r :: rs).erase (pickMax sizes r rs)) (cur * g)))
            (List.perm_cons_erase hj).symm

/-- C2: for every list of target sizes, initial eater size and growth factor,
the eating sequence returned by `_compute_eating_sequence` is exactly a
permutation of the target ids `0, …, n-1`, including on the degenerate
early-stop path. -/
theorem compute_eating_sequence_perm (b : ℚ) (red_sizes : List ℚ) (g : ℚ) :
    List.Perm (compute_eating_sequence b red_sizes g)
      (List.range red_sizes.length) :=
  eat_loop_perm red_sizes g red_sizes.length (List.range red_sizes.length) b

/-- C4: at any step of the eating loop at which at least one remaining target
has size at most the current eater size, the id appended to the sequence is a
remaining target of maximal size among the eatable ones, that id is removed
from the remaining set, and the loop continues with the eater size multiplied
by the growth factor. -/
theorem eat_loop_greedy_step (sizes : List ℚ) (g cur : ℚ) (fuel : ℕ)
    (remaining : List ℕ) (h : ∃ i ∈ remaining, sizes.getD i 0 ≤ cur) :
    ∃ j ∈ remaining, sizes.getD j 0 ≤ cur ∧
      (∀ i ∈ remaining, sizes.getD i 0 ≤ cur → sizes.getD i 0 ≤ sizes.getD j 0) ∧
      eat_loop sizes g (fuel + 1) remaining cur =
        j :: eat_loop sizes g fuel (remaining.erase j) (cur * g) := by
  rcases h with ⟨i0, hi0, hle0⟩
  have hmemf : i0 ∈ remaining.filter (fun i => decide (sizes.getD i 0 ≤ cur)) :=
    List.mem_filter.mpr ⟨hi0, by simpa using hle0⟩
  rcases hf : remaining.filter (fun i => decide (sizes.getD i 0 ≤ cur)) with _ | ⟨c, cs⟩
  · rw [hf] at hmemf
    simp at hmemf
  · have hm := pickMax_mem sizes c cs
    rw [← hf] at hm
    refine ⟨pickMax sizes c cs, (List.mem_filter.mp hm).1, ?_, ?_, ?_⟩
    · simpa using (List.mem_filter.mp hm).2
    · intro i hi hile
      have hif : i ∈ remaining.filter (fun i => decide (sizes.getD i 0 ≤ cur)) :=
        List.mem_filter.mpr ⟨hi, by simpa using hile⟩
      rw [hf] at hif
      exact pickMax_maximal sizes c cs i hif
    · rw [eat_loop_succ, hf]

/-- Witness for C4 at a concrete step: sizes `[2, 3]`, eater size `5`,
both targets eatable; the maximal one (id 1, size 3) is appended. -/
theorem eat_loop_greedy_step_witness :
    ∃ j ∈ [0, 1], ([2, 3] : List ℚ).getD j 0 ≤ 5 ∧
      (∀ i ∈ [0, 1], ([2, 3] : List ℚ).getD i 0 ≤ 5 →
        ([2, 3] : List ℚ).getD i 0 ≤ ([2, 3] : List ℚ).getD j 0) ∧
      eat_loop [2, 3] 2 (1 + 1) [0, 1] 5 =
        j :: eat_loop [2, 3] 2 1 ([0, 1].erase j) (5 * 2) :=
  eat_loop_greedy_step [2, 3] 2 5 1 [0, 1] ⟨0, by decide, by decide⟩

/-! ## Size solver (`_generate_solvable_sizes`, generator.py lines 129-213)

The solver's random draws are explicit parameters: `finalSize` is the value
drawn for the final black-ball size (step 1) and `draws` are the values
returned by the per-target `random.uniform` calls of the backward pass, in
the order they are drawn.  The recursive retry on verification failure
consumes fresh randomness each attempt, so the whole solver is modelled as a
function of a list of per-attempt random inputs; the Python code recurses
with no bound, so the model returns `none` once the supplied attempts are
exhausted. -/

/-- The backward pass's final value of `current_black_size`: one division by
the growth factor per generated target. -/
def backward_initial (g finalSize : ℚ) (draws : List ℚ) : ℚ :=
  draws.foldl (fun c _ => c / g) finalSize

/-- Lines 178-183: scale everything up when the initial size fell below
`min_size` (the initial size is set to `min_size` exactly). -/
def scale_up (min_size initial : ℚ) (reds : List ℚ) : ℚ × List ℚ :=
  if initial < min_size then
    (min_size, reds.map (fun s => s * (min_size / initial)))
  else (initial, reds)

/-- Lines 185-190: scale everything down when the initial size exceeds
`max_size * 0.5`. -/
def scale_down (max_size initial : ℚ) (reds : List ℚ) : ℚ × List ℚ :=
  if max_size * (1 / 2) < initial then
    (initial * ((max_size * (1 / 2)) / initial),
      reds.map (fun s => s * ((max_size * (1 / 2)) / initial)))
  else (initial, reds)

/-- `max(lo, min(hi, x))`, the clamping idiom of lines 193-195. -/
def clamp (lo hi x : ℚ) : ℚ := max lo (min hi x)

/-- `min(red_sizes) if red_sizes else min_size` (line 198). -/
def list_min (d : ℚ) : List ℚ → ℚ
  | [] => d
  | r :: rs => rs.foldl min r

/-- The sizes after the backward pass (reds reversed to forward order) and
the two conditional rescalings of lines 178-190. -/
def presizes (g min_size max_size finalSize : ℚ) (draws : List ℚ) : ℚ × List ℚ :=
  scale_down max_size
    (scale_up min_size (backward_initial g finalSize draws) draws.reverse).1
    (scale_up min_size (backward_initial g finalSize draws) draws.reverse).2

/-- The red-ball sizes after the final clamping of lines 193-194. -/
def clamped_reds (g min_size max_size finalSize : ℚ) (draws : List ℚ) : List ℚ :=
  (presizes g min_size max_size finalSize draws).2.map (clamp min_size max_size)

/-- The initial black-ball size after the clamp of line 195 and the
raise-to-smallest-red fix-up of lines 197-200. -/
def initial_black (g min_size max_size finalSize : ℚ) (draws : List ℚ) : ℚ :=
  if clamp min_size (max_size * (1 / 2)) (presizes g min_size max_size finalSize draws).1 <
      list_min min_size (clamped_reds g min_size max_size finalSize draws) then
    list_min min_size (clamped_reds g min_size max_size finalSize draws)
  else clamp min_size (max_size * (1 / 2)) (presizes g min_size max_size finalSize draws).1

/-- One construction attempt (steps 1-6 of the solver): backward pass,
rescaling, clamping, and the raise-to-smallest-target fix-up.  The drawn
`final_black_size` is only read through the backward pass after the
rescaling steps, so it is not returned. -/
def construct_sizes (g min_size max_size finalSize : ℚ) (draws : List ℚ) :
    ℚ × List ℚ :=
  (initial_black g min_size max_size finalSize draws,
    clamped_reds g min_size max_size finalSize draws)

/-- `_generate_solvable_sizes`: construct, compute the greedy order, verify;
on verification failure retry with the next attempt's random draws. -/
def generate_solvable_sizes (g min_size max_size : ℚ) :
    List (ℚ × List ℚ) → Option (ℚ × List ℚ × List ℕ)
  | [] => none
  | (f, ds) :: rest =>
    if verify_solvability (construct_sizes g min_size max_size f ds).1
        (construct_sizes g min_size max_size f ds).2
        (compute_eating_sequence (construct_sizes g min_size max_size f ds).1
          (construct_sizes g min_size max_size f ds).2 g) g then
      some ((construct_sizes g min_size max_size f ds).1,
        (construct_sizes g min_size max_size f ds).2,
        compute_eating_sequence (construct_sizes g min_size max_size f ds).1
          (construct_sizes g min_size max_size f ds).2 g)
    else generate_solvable_sizes g min_size max_size rest

/-- C1: every instance the size solver returns passes the solvability replay:
each target in the eating order fits the eater at the moment it is consumed,
with the eater growing by the factor after every consumption. -/
theorem solver_output_solvable (g min_size max_size : ℚ)
    (attempts : List (ℚ × List ℚ)) (b : ℚ) (reds : List ℚ) (seq : List ℕ)
    (h : generate_solvable_sizes g min_size max_size attempts = some (b, reds, seq)) :
    replay_ok reds g seq b = true := by
  induction attempts with
  | nil => simp [generate_solvable_sizes] at h
  | cons a rest ih =>
    rcases a with ⟨f, ds⟩
    rw [generate_solvable_sizes] at h
    split at h
    · rename_i hv
      have hinj := Option.some.inj h
      injection hinj with h1 h23
      injection h23 with h2 h3
      subst h1
      subst h2
      subst h3
      simp only [verify_solvability, Bool.and_eq_true] at hv
      exact hv.2
    · exact ih h

/-- Witness for C1: growth 2, bounds `[1, 100]`, one attempt with final size
8 and a single target draw 4 produces `(4, [4], [0])`, which replays. -/
theorem solver_output_solvable_witness :
    generate_solvable_sizes 2 1 100 [(8, [4])] = some (4, [4], [0]) ∧
      replay_ok [4] 2 [0] 4 = true :=
  ⟨by
    norm_num [generate_solvable_sizes, construct_sizes, initial_black,
      clamped_reds, presizes, backward_initial, scale_up, scale_down, clamp,
      list_min, verify_solvability, replay_ok, compute_eating_sequence,
      eat_loop, pickMax, min_size_of, List.range_succ, List.filter, List.getD],
   solver_output_solvable 2 1 100 [(8, [4])] 4 [4] [0] (by
    norm_num [generate_solvable_sizes, construct_sizes, initial_black,
      clamped_reds, presizes, backward_initial, scale_up, scale_down, clamp,
      list_min, verify_solvability, replay_ok, compute_eating_sequence,
      eat_loop, pickMax, min_size_of, List.range_succ, List.filter, List.getD])⟩

/-! ## Bounds of the produced sizes (C5) -/

lemma clamp_bounds (lo hi x : ℚ) (h : lo ≤ hi) :
    lo ≤ clamp lo hi x ∧ clamp lo hi x ≤ hi :=
  ⟨le_max_left _ _, max_le h (min_le_left _ _)⟩

lemma foldl_min_le_init (a : ℚ) (l : List ℚ) : l.foldl min a ≤ a := by
  induction l generalizing a with
  | nil => exact le_refl a
  | cons b bs ih => exact le_trans (ih (min a b)) (min_le_left a b)

lemma le_foldl_min (lo a : ℚ) (l : List ℚ) (ha : lo ≤ a)
    (hl : ∀ x ∈ l, lo ≤ x) : lo ≤ l.foldl min a := by
  induction l generalizing a with
  | nil => exact ha
  | cons b bs ih =>
    exact ih (min a b) (le_min ha (hl b (List.mem_cons_self b bs)))
      (fun x hx => hl x (List.mem_cons.mpr (Or.inr hx)))

lemma list_min_bounds (lo hi d : ℚ) (l : List ℚ) (hd : lo ≤ d ∧ d ≤ hi)
    (hl : ∀ x ∈ l, lo ≤ x ∧ x ≤ hi) :
    lo ≤ list_min d l ∧ list_min d l ≤ hi := by
  cases l with
  | nil => exact hd
  | cons r rs =>
    constructor
    · exact le_foldl_min lo r rs (hl r (List.mem_cons_self r rs)).1
        (fun x hx => (hl x (List.mem_cons.mpr (Or.inr hx))).1)
    · exact le_trans (foldl_min_le_init r rs)
        (hl r (List.mem_cons_self r rs)).2

lemma clamped_reds_bounds (g min_size max_size f : ℚ) (draws : List ℚ)
    (h1 : min_size ≤ max_size) :
    ∀ s ∈ clamped_reds g min_size max_size f draws,
      min_size ≤ s ∧ s ≤ max_size := by
  intro s hs
  rcases List.mem_map.mp hs with ⟨t, _, rfl⟩
  exact clamp_bounds min_size max_size t h1

lemma initial_black_bounds (g min_size max_size f : ℚ) (draws : List ℚ)
    (h1 : min_size ≤ max_size) (h2 : 0 ≤ max_size) :
    min_size ≤ initial_black g min_size max_size f draws ∧
      initial_black g min_size max_size f draws ≤ max_size := by
  have hhalf : max_size * (1 / 2) ≤ max_size := by linarith
  have hi3 : min_size ≤
      clamp min_size (max_size * (1 / 2)) (presizes g min_size max_size f draws).1 ∧
      clamp min_size (max_size * (1 / 2)) (presizes g min_size max_size f draws).1 ≤
        max_size :=
    ⟨le_max_left _ _, max_le h1 (le_trans (min_le_left _ _) hhalf)⟩
  have hmn : min_size ≤
      list_min min_size (clamped_reds g min_size max_size f draws) ∧
      list_min min_size (clamped_reds g min_size max_size f draws) ≤ max_size :=
    list_min_bounds min_size max_size min_size _ ⟨le_refl _, h1⟩
      (clamped_reds_bounds g min_size max_size f draws h1)
  rw [initial_black]
  split
  · exact hmn
  · exact hi3

/-- C5: under `0 < min_size < max_size`, every size in a result returned by
the size solver — the initial eater size and each target size — lies in the
closed interval `[min_size, max_size]`. -/
theorem solver_output_bounds (g min_size max_size : ℚ)
    (attempts : List (ℚ × List ℚ)) (b : ℚ) (reds : List ℚ) (seq : List ℕ)
    (h0 : 0 < min_size) (h1 : min_size < max_size)
    (h : generate_solvable_sizes g min_size max_size attempts = some (b, reds, seq)) :
    (min_size ≤ b ∧ b ≤ max_size) ∧
      ∀ s ∈ reds, min_size ≤ s ∧ s ≤ max_size := by
  induction attempts with
  | nil => simp [generate_solvable_sizes] at h
  | cons a rest ih =>
    rcases a with ⟨f, ds⟩
    rw [generate_solvable_sizes] at h
    split at h
    · have hinj := Option.some.inj h
      injection hinj with hb h23
      injection h23 with hr h3
      subst hb
      subst hr
      exact ⟨initial_black_bounds g min_size max_size f ds h1.le
          (le_trans h0.le h1.le),
        clamped_reds_bounds g min_size max_size f ds h1.le⟩
    · exact ih h

/-- Witness for C5: growth 2, bounds `[1, 100]`, final size 8, one draw 2:
the solver returns eater size 4 and target sizes `[2]`, all inside `[1, 100]`. -/
theorem solver_output_bounds_witness :
    0 < (1 : ℚ) ∧ (1 : ℚ) < 100 ∧
      generate_solvable_sizes 2 1 100 [(8, [2])] = some (4, [2], [0]) ∧
      (((1 : ℚ) ≤ 4 ∧ (4 : ℚ) ≤ 100) ∧
        ∀ s ∈ ([2] : List ℚ), (1 : ℚ) ≤ s ∧ s ≤ 100) :=
  ⟨by norm_num, by norm_num,
   by
    norm_num [generate_solvable_sizes, construct_sizes, initial_black,
      clamped_reds, presizes, backward_initial, scale_up, scale_down, clamp,
      list_min, verify_solvability, replay_ok, compute_eating_sequence,
      eat_loop, pickMax, min_size_of, List.range_succ, List.filter, List.getD],
   solver_output_bounds 2 1 100 [(8, [2])] 4 [2] [0] (by norm_num) (by norm_num)
    (by
      norm_num [generate_solvable_sizes, construct_sizes, initial_black,
        clamped_reds, presizes, backward_initial, scale_up, scale_down, clamp,
        list_min, verify_solvability, replay_ok, compute_eating_sequence,
        eat_loop, pickMax, min_size_of, List.range_succ, List.filter,
        List.getD])⟩

/-- C8 evidence: the retry path is reachable and the code contains no retry
bound.  With growth factor `21/20`, bounds `[20, 150]`, final size 90 and
draws `[90, 30]`, the construction rescales to eater 75 with targets
`[441/16, 1323/16]`; the greedy order `[0, 1]` fails verification
(`1323/16 > 75 * 21/20`), so `_generate_solvable_sizes` recurses — in this
model, a single-attempt run is exhausted without a result. -/
theorem solver_retry_reachable :
    generate_solvable_sizes (21 / 20) 20 150 [(90, [90, 30])] = none := by
  norm_num [generate_solvable_sizes, construct_sizes, initial_black,
    clamped_reds, presizes, backward_initial, scale_up, scale_down, clamp,
    list_min, verify_solvability, replay_ok, compute_eating_sequence,
    eat_loop, pickMax, min_size_of, List.range_succ, List.filter, List.getD]

/-! ## Placer (`_generate_position`, generator.py lines 281-310)

Candidate centers are drawn by `random.uniform(margin, width - margin)` and
`random.uniform(margin, height - margin)`; the stream of drawn pairs is an
explicit parameter. -/

structure Circle where
  x : ℚ
  y : ℚ
  radius : ℚ
deriving DecidableEq

/-- The overlap test of lines 296-304 for one candidate against the occupied
list.  The code compares the Euclidean distance `sqrt(dx^2 + dy^2)` with
`radius + other.radius + 5`; over `ℚ` we compare the squares, which is
equivalent whenever the bound is nonnegative (radii are nonnegative in every
reachable call). -/
def overlaps_any (radius : ℚ) (occupied : List Circle) (px py : ℚ) : Bool :=
  occupied.any fun c =>
    decide ((px - c.x) ^ 2 + (py - c.y) ^ 2 < (radius + c.radius + 5) ^ 2)

/-- The rejection-sampling loop (`for _ in range(100)`): scan up to `fuel`
candidates and return the first that does not overlap; fall back to the
canvas center. -/
def place_loop (radius : ℚ) (occupied : List Circle) (w h : ℚ) :
    ℕ → List (ℚ × ℚ) → ℚ × ℚ
  | 0, _ => (w / 2, h / 2)
  | _ + 1, [] => (w / 2, h / 2)
  | fuel + 1, p :: rest =>
    if overlaps_any radius occupied p.1 p.2 then
      place_loop radius occupied w h fuel rest
    else p

/-- `_generate_position(ball_size, width, height, occupied)`. -/
def generate_position (ball_size w h : ℚ) (occupied : List Circle)
    (cands : List (ℚ × ℚ)) : ℚ × ℚ :=
  place_loop (ball_size / 2) occupied w h 100 cands

/-- The interval the candidate draws live in: `margin = ball_size/2 + 10`
from every canvas edge (the `random.uniform` contract of lines 293-294). -/
def in_margin_bounds (ball_size w h : ℚ) (p : ℚ × ℚ) : Prop :=
  ball_size / 2 + 10 ≤ p.1 ∧ p.1 ≤ w - (ball_size / 2 + 10) ∧
    ball_size / 2 + 10 ≤ p.2 ∧ p.2 ≤ h - (ball_size / 2 + 10)

instance (ball_size w h : ℚ) (p : ℚ × ℚ) :
    Decidable (in_margin_bounds ball_size w h p) := by
  unfold in_margin_bounds
  infer_instance

lemma place_loop_succ_cons (radius : ℚ) (occupied : List Circle) (w h : ℚ)
    (fuel : ℕ) (p : ℚ × ℚ) (rest : List (ℚ × ℚ)) :
    place_loop radius occupied w h (fuel + 1) (p :: rest) =
      if overlaps_any radius occupied p.1 p.2 then
        place_loop radius occupied w h fuel rest
      else p := rfl

/-- Every run of the rejection loop either accepts a candidate from the
scanned prefix that does not overlap, or rejects the whole prefix and
returns the canvas center. -/
lemma place_loop_spec (radius : ℚ) (occupied : List Circle) (w h : ℚ) :
    ∀ (fuel : ℕ) (cands : List (ℚ × ℚ)),
      (place_loop radius occupied w h fuel cands ∈ cands.take fuel ∧
        overlaps_any radius occupied
          (place_loop radius occupied w h fuel cands).1
          (place_loop radius occupied w h fuel cands).2 = false) ∨
      (place_loop radius occupied w h fuel cands = (w / 2, h / 2) ∧
        ∀ p ∈ cands.take fuel,
          overlaps_any radius occupied p.1 p.2 = true) := by
  intro fuel
  induction fuel with
  | zero =>
    intro cands
    right
    exact ⟨rfl, by simp⟩
  | succ fuel ih =>
    intro cands
    cases cands with
    | nil =>
      right
      exact ⟨rfl, by simp⟩
    | cons p rest =>
      rw [place_loop_succ_cons, List.take_succ_cons]
      by_cases ho : overlaps_any radius occupied p.1 p.2 = true
      · rw [if_pos ho]
        rcases ih rest with ⟨hmem, hov⟩ | ⟨heq, hall⟩
        · left
          exact ⟨List.mem_cons.mpr (Or.inr hmem), hov⟩
        · right
          refine ⟨heq, ?_⟩
          intro q hq
          rcases List.mem_cons.mp hq with rfl | hq2
          · exact ho
          · exact hall q hq2
      · rw [if_neg ho]
        left
        exact ⟨List.mem_cons_self _ _, Bool.eq_false_iff.mpr ho⟩

/-- C9: every position the placer returns is either a candidate accepted
within the 100-try budget — lying inside the canvas with a margin of the
ball's radius plus 10 on every side, and clear of every occupied disc by the
(squared) Euclidean-distance test with the 5-unit buffer — or, only after
all 100 tries are rejected, the canvas center as a deterministic fallback. -/
theorem generate_position_spec (ball_size w h : ℚ) (occupied : List Circle)
    (cands : List (ℚ × ℚ))
    (hb : ∀ p ∈ cands, in_margin_bounds ball_size w h p)
    (hlen : 100 ≤ cands.length) :
    (generate_position ball_size w h occupied cands ∈ cands.take 100 ∧
      in_margin_bounds ball_size w h
        (generate_position ball_size w h occupied cands) ∧
      overlaps_any (ball_size / 2) occupied
        (generate_position ball_size w h occupied cands).1
        (generate_position ball_size w h occupied cands).2 = false) ∨
    (generate_position ball_size w h occupied cands = (w / 2, h / 2) ∧
      (cands.take 100).length = 100 ∧
      ∀ p ∈ cands.take 100,
        overlaps_any (ball_size / 2) occupied p.1 p.2 = true) := by
  rcases place_loop_spec (ball_size / 2) occupied w h 100 cands with
    ⟨hmem, hov⟩ | ⟨heq, hall⟩
  · left
    exact ⟨hmem, hb _ (List.take_subset 100 cands hmem), hov⟩
  · right
    refine ⟨heq, ?_, hall⟩
    rw [List.length_take]
    exact Nat.min_eq_left hlen

/-- Witness for C9: ball size 20 on a 512x512 canvas with nothing occupied
and 100 in-bounds draws at `(50, 50)`; the first candidate is accepted. -/
theorem generate_position_spec_witness :
    (generate_position 20 512 512 []
        (List.replicate 100 ((50 : ℚ), (50 : ℚ))) ∈
        (List.replicate 100 ((50 : ℚ), (50 : ℚ))).take 100 ∧
      in_margin_bounds 20 512 512
        (generate_position 20 512 512 []
          (List.replicate 100 ((50 : ℚ), (50 : ℚ)))) ∧
      overlaps_any (20 / 2) []
        (generate_position 20 512 512 []
          (List.replicate 100 ((50 : ℚ), (50 : ℚ)))).1
        (generate_position 20 512 512 []
          (List.replicate 100 ((50 : ℚ), (50 : ℚ)))).2 = false) ∨
    (generate_position 20 512 512 []
        (List.replicate 100 ((50 : ℚ), (50 : ℚ))) = (512 / 2, 512 / 2) ∧
      ((List.replicate 100 ((50 : ℚ), (50 : ℚ))).take 100).length = 100 ∧
      ∀ p ∈ (List.replicate 100 ((50 : ℚ), (50 : ℚ))).take 100,
        overlaps_any (20 / 2) [] p.1 p.2 = true) :=
  generate_position_spec 20 512 512 [] (List.replicate 100 ((50 : ℚ), (50 : ℚ)))
    (by
      intro p hp
      rw [List.eq_of_mem_replicate hp]
      norm_num [in_margin_bounds])
    (by simp)

/-! ## Final-state rendering (`_render_final_state`, lines 339-360) -/

/-- An axis-aligned bounding box handed to `ImageDraw.ellipse`, plus its
fill color. -/
structure DrawnDisc where
  x0 : ℚ
  y0 : ℚ
  x1 : ℚ
  y1 : ℚ
  color : ℕ × ℕ × ℕ
deriving DecidableEq

/-- `_draw_ball(draw, x, y, size, color)` (lines 362-378): an ellipse on the
bbox centered at `(x, y)` with half-extent `size/2`. -/
def draw_ball (x y size : ℚ) (color : ℕ × ℕ × ℕ) : DrawnDisc :=
  ⟨x - size / 2, y - size / 2, x + size / 2, y + size / 2, color⟩

structure BlackBall where
  x : ℚ
  y : ℚ
  size : ℚ
deriving DecidableEq

structure RedBall where
  id : ℕ
  x : ℚ
  y : ℚ
  size : ℚ
deriving DecidableEq

/-- The `task_data` dict: eater, targets (with ids), eating order. -/
structure TaskData where
  black : BlackBall
  reds : List RedBall
  seq : List ℕ
deriving DecidableEq

/-- `_render_final_state`: one black disc at the canvas center, at size
`initial * growth_factor ^ num_red`. -/
def render_final_state (growth_factor w h : ℚ) (td : TaskData) : List DrawnDisc :=
  [draw_ball (w / 2) (h / 2)
    (td.black.size * growth_factor ^ td.reds.length) (0, 0, 0)]

/-- C7: the final rendered state is a single black disc whose bbox is
centered at `(w/2, h/2)` — re-centered, independent of any animated
position — with extent `initial_size * growth_factor ^ num_targets` in both
axes. -/
theorem render_final_state_centered (growth_factor w h : ℚ) (td : TaskData) :
    ∃ d, render_final_state growth_factor w h td = [d] ∧
      (d.x0 + d.x1) / 2 = w / 2 ∧ (d.y0 + d.y1) / 2 = h / 2 ∧
      d.x1 - d.x0 = td.black.size * growth_factor ^ td.reds.length ∧
      d.y1 - d.y0 = td.black.size * growth_factor ^ td.reds.length ∧
      d.color = (0, 0, 0) := by
  refine ⟨_, rfl, ?_, ?_, ?_, ?_, rfl⟩ <;>
    · simp only [draw_ball]
      ring

/-! ## Animator (`_create_animation_frames`, generator.py lines 402-503)

A frame is the world-state handed to `_render_frame`: the black ball's
position and size and the ids of the red balls still present (the mutable
`remaining_reds` set, snapshotted at render time; modelled as the id list in
iteration order). -/

structure Frame where
  x : ℚ
  y : ℚ
  size : ℚ
  remaining : List ℕ
deriving DecidableEq

instance : Inhabited Frame := ⟨⟨0, 0, 0, []⟩⟩

/-- The move phase (lines 451-459): `m` frames linearly interpolating the
black ball's position toward the target; size and remaining set unchanged. -/
def move_frames (st : Frame) (tx ty : ℚ) (m : ℕ) : List Frame :=
  (List.range m).map fun (i : ℕ) =>
    let progress : ℚ := if 1 < m then (i : ℚ) / ((m : ℚ) - 1) else 1
    ⟨st.x + (tx - st.x) * progress, st.y + (ty - st.y) * progress,
      st.size, st.remaining⟩

/-- The grow phase (lines 471-483): `k` frames at the consumed target's
position, with the consumed id already removed, interpolating the size
linearly from `old_size` to `new_size = old_size * g` with the code's `min`
safety clamp. -/
def grow_frames (tx ty old_size g : ℚ) (rem : List ℕ) (k : ℕ) : List Frame :=
  (List.range k).map fun (i : ℕ) =>
    let progress : ℚ := if 1 < k then (i : ℚ) / ((k : ℚ) - 1) else 1
    ⟨tx, ty,
      min (old_size + (old_size * g - old_size) * progress) (old_size * g),
      rem⟩

/-- One entry of the `for red_id in eating_sequence` loop (lines 445-486):
move toward the target, then remove it (`remaining_reds.remove`; a missing
id would raise `KeyError`, unreachable for the permutation orders produced
upstream) and grow at its position.  Returns the appended frames and the
updated black-ball state. -/
def eat_anim_step (g : ℚ) (loc : ℕ → ℚ × ℚ) (m k : ℕ) (st : Frame)
    (red_id : ℕ) : List Frame × Frame :=
  (move_frames st (loc red_id).1 (loc red_id).2 m ++
    grow_frames (loc red_id).1 (loc red_id).2 st.size g
      (st.remaining.erase red_id) k,
   ⟨(loc red_id).1, (loc red_id).2, st.size * g, st.remaining.erase red_id⟩)

/-- The whole eating-sequence loop, threading the black-ball state. -/
def animate_seq (g : ℚ) (loc : ℕ → ℚ × ℚ) (m k : ℕ) :
    Frame → List ℕ → List Frame × Frame
  | st, [] => ([], st)
  | st, red_id :: rest =>
    ((eat_anim_step g loc m k st red_id).1 ++
      (animate_seq g loc m k (eat_anim_step g loc m k st red_id).2 rest).1,
     (animate_seq g loc m k (eat_anim_step g loc m k st red_id).2 rest).2)

/-- `red_dict[red_id]`'s position (lines 416-417 and 446-448); a missing id
would raise `KeyError`, modelled by a default. -/
def red_loc (td : TaskData) (i : ℕ) : ℚ × ℚ :=
  match td.reds.find? (fun b => b.id == i) with
  | some b => (b.x, b.y)
  | none => (0, 0)

/-- The initial animation state (lines 420-423): black ball at its starting
position and size, all red ids present. -/
def init_state (td : TaskData) : Frame :=
  ⟨td.black.x, td.black.y, td.black.size, td.reds.map (fun b => b.id)⟩

/-- `max_frames = int(max_duration * fps)` (lines 426 and 497). -/
def max_frames_cap (fps : ℕ) (max_duration : ℚ) : ℤ :=
  pyInt ((fps : ℚ) * max_duration)

/-- `frames_per_action = max(3, available_frames // (num_actions * 2))`
(lines 429-431); `//` is Python floor division, `Int.fdiv`.  With
`num_actions = 0` the Python code raises `ZeroDivisionError`; callers of
this model guard that case. -/
def frames_per_action (fps : ℕ) (max_duration : ℚ) (num_actions : ℕ) : ℤ :=
  max 3 (Int.fdiv (max_frames_cap fps max_duration - 8)
    ((num_actions : ℤ) * 2))

/-- `move_frames_per_ball = max(3, frames_per_action)` (line 441). -/
def move_count (fps : ℕ) (max_duration : ℚ) (num_actions : ℕ) : ℕ :=
  (max 3 (frames_per_action fps max_duration num_actions)).toNat

/-- `grow_frames = min(12, max(6, frames_per_action))` (line 443), as a
function of the computed `frames_per_action`. -/
def grow_count_of (fpa : ℤ) : ℕ :=
  (min 12 (max 6 fpa)).toNat

/-- Line 443 applied to the animator's own `frames_per_action`. -/
def grow_count (fps : ℕ) (max_duration : ℚ) (num_actions : ℕ) : ℕ :=
  grow_count_of (frames_per_action fps max_duration num_actions)

/-- The frame list before the cap check (lines 433-494): 4 hold frames of
the initial state, the per-target phases, 4 hold frames of the final
state. -/
def naive_frames (g : ℚ) (td : TaskData) (m k : ℕ) : List Frame :=
  List.replicate 4 (init_state td) ++
    (animate_seq g (red_loc td) m k (init_state td) td.seq).1 ++
    List.replicate 4 (animate_seq g (red_loc td) m k (init_state td) td.seq).2

/-- The even-index downsampling of lines 499-501.  Python computes
`int(i * (len - 1) / (max_frames - 1))` by float true division and
truncation; on the nonnegative ints reached here this is ℕ floor
division. -/
def downsample (l : List Frame) (cap : ℕ) : List Frame :=
  (List.range cap).map fun i => l.getD (i * (l.length - 1) / (cap - 1)) default

/-- `_create_animation_frames`.  Returns `none` exactly where the Python
code raises `ZeroDivisionError`: an empty eating sequence (division by
`num_actions * 2` at line 431), and a downsample with `max_frames = 1`
(division by `max_frames - 1` at line 500; with `max_frames ≤ 0` the index
comprehension ranges over nothing, so no division is evaluated and the
result is empty). -/
def create_animation_frames (g : ℚ) (fps : ℕ) (max_duration : ℚ)
    (td : TaskData) : Option (List Frame) :=
  if td.seq.length = 0 then none
  else
    if ((naive_frames g td (move_count fps max_duration td.seq.length)
          (grow_count fps max_duration td.seq.length)).length : ℤ) >
        max_frames_cap fps max_duration then
      if max_frames_cap fps max_duration = 1 then none
      else
        some (downsample
          (naive_frames g td (move_count fps max_duration td.seq.length)
            (grow_count fps max_duration td.seq.length))
          (max_frames_cap fps max_duration).toNat)
    else
      some (naive_frames g td (move_count fps max_duration td.seq.length)
        (grow_count fps max_duration td.seq.length))

/-! ## Animator lemmas -/

lemma head?_map_range {α : Type} (f : ℕ → α) (k : ℕ) (hk : 1 ≤ k) :
    ((List.range k).map f).head? = some (f 0) := by
  cases k with
  | zero => omega
  | succ n =>
    rw [List.range_succ_eq_map]
    simp

lemma getLast?_map_range {α : Type} (f : ℕ → α) (k : ℕ) (hk : 1 ≤ k) :
    ((List.range k).map f).getLast? = some (f (k - 1)) := by
  cases k with
  | zero => omega
  | succ n =>
    rw [List.range_succ, List.map_append]
    simp

lemma animate_seq_cons (g : ℚ) (loc : ℕ → ℚ × ℚ) (m k : ℕ) (st : Frame)
    (red_id : ℕ) (rest : List ℕ) :
    animate_seq g loc m k st (red_id :: rest) =
      ((eat_anim_step g loc m k st red_id).1 ++
        (animate_seq g loc m k (eat_anim_step g loc m k st red_id).2 rest).1,
       (animate_seq g loc m k (eat_anim_step g loc m k st red_id).2 rest).2) :=
  rfl

lemma move_frames_length (st : Frame) (tx ty : ℚ) (m : ℕ) :
    (move_frames st tx ty m).length = m := by
  rw [move_frames, List.length_map, List.length_range]

lemma grow_frames_length (tx ty old_size g : ℚ) (rem : List ℕ) (k : ℕ) :
    (grow_frames tx ty old_size g rem k).length = k := by
  rw [grow_frames, List.length_map, List.length_range]

lemma eat_anim_step_fst_length (g : ℚ) (loc : ℕ → ℚ × ℚ) (m k : ℕ)
    (st : Frame) (red_id : ℕ) :
    (eat_anim_step g loc m k st red_id).1.length = m + k := by
  show (move_frames st (loc red_id).1 (loc red_id).2 m ++
    grow_frames (loc red_id).1 (loc red_id).2 st.size g
      (st.remaining.erase red_id) k).length = m + k
  rw [List.length_append, move_frames_length, grow_frames_length]

lemma animate_seq_length (g : ℚ) (loc : ℕ → ℚ × ℚ) (m k : ℕ) :
    ∀ (seq : List ℕ) (st : Frame),
      (animate_seq g loc m k st seq).1.length = seq.length * (m + k) := by
  intro seq
  induction seq with
  | nil => intro st; simp [animate_seq]
  | cons red_id rest ih =>
    intro st
    rw [animate_seq_cons]
    show ((eat_anim_step g loc m k st red_id).1 ++
        (animate_seq g loc m k (eat_anim_step g loc m k st red_id).2 rest).1).length = _
    rw [List.length_append, eat_anim_step_fst_length, ih, List.length_cons,
      Nat.succ_mul]
    omega

lemma naive_frames_length (g : ℚ) (td : TaskData) (m k : ℕ) :
    (naive_frames g td m k).length = 8 + td.seq.length * (m + k) := by
  rw [naive_frames]
  rw [List.length_append, List.length_append, List.length_replicate,
    List.length_replicate, animate_seq_length]
  omega

lemma naive_frames_ne_nil (g : ℚ) (td : TaskData) (m k : ℕ) :
    naive_frames g td m k ≠ [] := by
  have h := naive_frames_length g td m k
  intro hcontra
  rw [hcontra, List.length_nil] at h
  omega

lemma downsample_length (l : List Frame) (cap : ℕ) :
    (downsample l cap).length = cap := by
  simp [downsample]

lemma downsample_head? (l : List Frame) (cap : ℕ) (hc : 1 ≤ cap)
    (hl : l ≠ []) : (downsample l cap).head? = l.head? := by
  rw [downsample, head?_map_range _ cap hc]
  cases l with
  | nil => exact absurd rfl hl
  | cons a l' => simp

lemma downsample_getLast? (l : List Frame) (cap : ℕ) (hc : 2 ≤ cap)
    (hl : l ≠ []) : (downsample l cap).getLast? = l.getLast? := by
  rw [downsample, getLast?_map_range _ cap (by omega)]
  have hidx : (cap - 1) * (l.length - 1) / (cap - 1) = l.length - 1 :=
    Nat.mul_div_cancel_left _ (by omega)
  rw [hidx]
  have hlt : l.length - 1 < l.length := by
    have hpos : 0 < l.length := List.length_pos.mpr hl
    omega
  rw [List.getLast?_eq_getElem?, List.getElem?_eq_getElem hlt,
    List.getD_eq_getElem?_getD, List.getElem?_eq_getElem hlt]
  rfl

/-- C3 (amended): with a nonempty eating sequence and a frame cap of at
least 2, the animator returns a frame list of length at most
`int(fps * max_duration)`; whenever the naive per-phase allocation exceeds
the cap, the result has length exactly the cap and keeps the naive
sequence's first and last frames.  (With cap exactly 1 the code instead
divides by zero, see `create_animation_frames_cap_one_crash`.) -/
theorem create_animation_frames_cap (g : ℚ) (fps : ℕ) (max_duration : ℚ)
    (td : TaskData) (hn : td.seq.length ≠ 0)
    (hcap : 2 ≤ max_frames_cap fps max_duration) :
    ∃ l, create_animation_frames g fps max_duration td = some l ∧
      (l.length : ℤ) ≤ max_frames_cap fps max_duration ∧
      (((naive_frames g td (move_count fps max_duration td.seq.length)
            (grow_count fps max_duration td.seq.length)).length : ℤ) >
          max_frames_cap fps max_duration →
        (l.length : ℤ) = max_frames_cap fps max_duration ∧
        l.head? = (naive_frames g td (move_count fps max_duration td.seq.length)
          (grow_count fps max_duration td.seq.length)).head? ∧
        l.getLast? = (naive_frames g td (move_count fps max_duration td.seq.length)
          (grow_count fps max_duration td.seq.length)).getLast?) := by
  rw [create_animation_frames, if_neg hn]
  by_cases hgt : ((naive_frames g td (move_count fps max_duration td.seq.length)
      (grow_count fps max_duration td.seq.length)).length : ℤ) >
      max_frames_cap fps max_duration
  · rw [if_pos hgt, if_neg (by omega : ¬max_frames_cap fps max_duration = 1)]
    refine ⟨_, rfl, ?_, ?_⟩
    · rw [downsample_length, Int.toNat_of_nonneg (by omega)]
    · intro _
      refine ⟨?_, ?_, ?_⟩
      · rw [downsample_length, Int.toNat_of_nonneg (by omega)]
      · exact downsample_head? _ _ (by omega) (naive_frames_ne_nil g td _ _)
      · exact downsample_getLast? _ _ (by omega) (naive_frames_ne_nil g td _ _)
  · rw [if_neg hgt]
    exact ⟨_, rfl, by omega, fun hcontra => absurd hcontra hgt⟩

/-- C3 counterexample: with `fps = 1` and `max_duration = 1` the cap
`int(fps * max_duration)` is 1, and any instance with one target yields 17
naive frames, so the downsampling index computation divides by
`max_frames - 1 = 0`: the Python code raises `ZeroDivisionError` and no
frame sequence (of any length) is produced. -/
theorem create_animation_frames_cap_one_crash :
    create_animation_frames (7 / 5) 1 1
      ⟨⟨100, 100, 30⟩, [⟨0, 200, 200, 20⟩], [0]⟩ = none := by
  have hcap : max_frames_cap 1 1 = 1 := by
    norm_num [max_frames_cap, pyInt]
  have hfpa : frames_per_action 1 1 1 = 3 := by
    rw [frames_per_action, hcap]
    decide
  have hm : move_count 1 1 1 = 3 := by
    rw [move_count, hfpa]
    decide
  have hk : grow_count 1 1 1 = 6 := by
    rw [grow_count, grow_count_of, hfpa]
    decide
  have hseq : (⟨⟨100, 100, 30⟩, [⟨0, 200, 200, 20⟩], [0]⟩ : TaskData).seq.length = 1 :=
    rfl
  rw [create_animation_frames, hseq, if_neg (by decide : ¬(1 = 0)), hm, hk]
  have hcond : ((naive_frames (7 / 5)
      ⟨⟨100, 100, 30⟩, [⟨0, 200, 200, 20⟩], [0]⟩ 3 6).length : ℤ) >
      max_frames_cap 1 1 := by
    rw [naive_frames_length, hseq, hcap]
    decide
  rw [if_pos hcond, if_pos hcap]

/-- Witness for C3 (amended): `fps = 10`, `max_duration = 10` give cap 100
and a one-target instance stays under it. -/
theorem create_animation_frames_cap_witness :
    ∃ l, create_animation_frames (7 / 5) 10 10
        ⟨⟨100, 100, 30⟩, [⟨0, 200, 200, 20⟩], [0]⟩ = some l ∧
      (l.length : ℤ) ≤ max_frames_cap 10 10 ∧
      (((naive_frames (7 / 5) ⟨⟨100, 100, 30⟩, [⟨0, 200, 200, 20⟩], [0]⟩
            (move_count 10 10
              (⟨⟨100, 100, 30⟩, [⟨0, 200, 200, 20⟩], [0]⟩ : TaskData).seq.length)
            (grow_count 10 10
              (⟨⟨100, 100, 30⟩, [⟨0, 200, 200, 20⟩], [0]⟩ : TaskData).seq.length)).length : ℤ) >
          max_frames_cap 10 10 →
        (l.length : ℤ) = max_frames_cap 10 10 ∧
        l.head? = (naive_frames (7 / 5) ⟨⟨100, 100, 30⟩, [⟨0, 200, 200, 20⟩], [0]⟩
          (move_count 10 10
            (⟨⟨100, 100, 30⟩, [⟨0, 200, 200, 20⟩], [0]⟩ : TaskData).seq.length)
          (grow_count 10 10
            (⟨⟨100, 100, 30⟩, [⟨0, 200, 200, 20⟩], [0]⟩ : TaskData).seq.length)).head? ∧
        l.getLast? = (naive_frames (7 / 5) ⟨⟨100, 100, 30⟩, [⟨0, 200, 200, 20⟩], [0]⟩
          (move_count 10 10
            (⟨⟨100, 100, 30⟩, [⟨0, 200, 200, 20⟩], [0]⟩ : TaskData).seq.length)
          (grow_count 10 10
            (⟨⟨100, 100, 30⟩, [⟨0, 200, 200, 20⟩], [0]⟩ : TaskData).seq.length)).getLast?) :=
  create_animation_frames_cap (7 / 5) 10 10
    ⟨⟨100, 100, 30⟩, [⟨0, 200, 200, 20⟩], [0]⟩ (by decide)
    (by norm_num [max_frames_cap, pyInt])

/-! ## Grow-phase monotonicity (C6) -/

lemma grow_count_of_ge_six (fpa : ℤ) : 6 ≤ grow_count_of fpa := by
  rw [grow_count_of]
  omega

/-- C6: within any single grow phase of the animation (`grow_frames`, with
the animator's frame count for any computed `frames_per_action`), for
growth factor > 1 and positive eater size, successive frame sizes are
strictly increasing, never exceed the phase target `old_size * g`, and the
last frame's size equals the target exactly. -/
theorem grow_phase_strict_mono (tx ty old_size g : ℚ) (rem : List ℕ)
    (fpa : ℤ) (hg : 1 < g) (hpos : 0 < old_size) :
    ((grow_frames tx ty old_size g rem (grow_count_of fpa)).map
      Frame.size).Pairwise (· < ·) ∧
    (∀ f ∈ grow_frames tx ty old_size g rem (grow_count_of fpa),
      f.size ≤ old_size * g) ∧
    ((grow_frames tx ty old_size g rem (grow_count_of fpa)).map
      Frame.size).getLast? = some (old_size * g) := by
  have hk6 : 6 ≤ grow_count_of fpa := grow_count_of_ge_six fpa
  have hklt : 1 < grow_count_of fpa := by omega
  have hden : (0 : ℚ) < (grow_count_of fpa : ℚ) - 1 := by
    have h2 : (2 : ℚ) ≤ (grow_count_of fpa : ℚ) := by
      exact_mod_cast le_trans (by norm_num) hk6
    linarith
  have hfac : (0 : ℚ) < old_size * g - old_size := by
    nlinarith
  have hmap : (grow_frames tx ty old_size g rem (grow_count_of fpa)).map
      Frame.size = (List.range (grow_count_of fpa)).map
      (fun i : ℕ => min (old_size + (old_size * g - old_size) *
        ((i : ℚ) / ((grow_count_of fpa : ℚ) - 1))) (old_size * g)) := by
    rw [grow_frames, List.map_map]
    refine List.map_congr_left ?_
    intro i _
    simp only [Function.comp, if_pos hklt]
  have harg : ∀ i : ℕ, i < grow_count_of fpa →
      old_size + (old_size * g - old_size) *
        ((i : ℚ) / ((grow_count_of fpa : ℚ) - 1)) ≤ old_size * g := by
    intro i hi
    have hr : (i : ℚ) / ((grow_count_of fpa : ℚ) - 1) ≤ 1 := by
      rw [div_le_one hden]
      have : (i : ℚ) + 1 ≤ (grow_count_of fpa : ℚ) := by
        exact_mod_cast Nat.succ_le_of_lt hi
      linarith
    have hmul := mul_le_mul_of_nonneg_left hr hfac.le
    rw [mul_one] at hmul
    linarith
  refine ⟨?_, ?_, ?_⟩
  · rw [hmap, List.pairwise_map]
    refine List.Pairwise.imp_of_mem ?_ (List.pairwise_lt_range _)
    intro i j hi hj hij
    have hjk : j < grow_count_of fpa := List.mem_range.mp hj
    have hik : i < grow_count_of fpa := List.mem_range.mp hi
    rw [min_eq_left (harg i hik), min_eq_left (harg j hjk)]
    have hr : (i : ℚ) / ((grow_count_of fpa : ℚ) - 1) <
        (j : ℚ) / ((grow_count_of fpa : ℚ) - 1) :=
      (div_lt_div_iff_of_pos_right hden).mpr (by exact_mod_cast hij)
    have hmul := mul_lt_mul_of_pos_left hr hfac
    linarith
  · intro f hf
    rw [grow_frames] at hf
    rcases List.mem_map.mp hf with ⟨i, _, rfl⟩
    exact min_le_right _ _
  · rw [hmap, getLast?_map_range _ _ (by omega : 1 ≤ grow_count_of fpa)]
    have hcast : ((grow_count_of fpa - 1 : ℕ) : ℚ) =
        (grow_count_of fpa : ℚ) - 1 := by
      have h1 : 1 ≤ grow_count_of fpa := by omega
      rw [Nat.cast_sub h1, Nat.cast_one]
    rw [hcast, div_self hden.ne']
    have hring : old_size + (old_size * g - old_size) * 1 = old_size * g := by
      ring
    rw [hring, min_self]

/-- Witness for C6: growth 2, eater size 10, `frames_per_action = 3`
(phase length 6). -/
theorem grow_phase_strict_mono_witness :
    ((grow_frames 0 0 10 2 [] (grow_count_of 3)).map Frame.size).Pairwise (· < ·) ∧
    (∀ f ∈ grow_frames 0 0 10 2 [] (grow_count_of 3), f.size ≤ 10 * 2) ∧
    ((grow_frames 0 0 10 2 [] (grow_count_of 3)).map Frame.size).getLast? =
      some (10 * 2) :=
  grow_phase_strict_mono 0 0 10 2 [] 3 (by norm_num) (by norm_num)

/-- C10: during every move phase of the animation the eater's size and the
remaining-target set are unchanged — in particular the approached target is
present in every move-phase frame — and the target is removed from the
remaining set exactly when its grow phase begins. -/
theorem move_phase_preserves (g : ℚ) (loc : ℕ → ℚ × ℚ) (m k : ℕ)
    (st : Frame) (red_id : ℕ) (h : red_id ∈ st.remaining) :
    (eat_anim_step g loc m k st red_id).1 =
      move_frames st (loc red_id).1 (loc red_id).2 m ++
        grow_frames (loc red_id).1 (loc red_id).2 st.size g
          (st.remaining.erase red_id) k ∧
    (∀ f ∈ move_frames st (loc red_id).1 (loc red_id).2 m,
      f.size = st.size ∧ f.remaining = st.remaining ∧ red_id ∈ f.remaining) ∧
    (∀ f ∈ grow_frames (loc red_id).1 (loc red_id).2 st.size g
        (st.remaining.erase red_id) k,
      f.remaining = st.remaining.erase red_id) := by
  refine ⟨rfl, ?_, ?_⟩
  · intro f hf
    rw [move_frames] at hf
    rcases List.mem_map.mp hf with ⟨i, _, rfl⟩
    exact ⟨rfl, rfl, h⟩
  · intro f hf
    rw [grow_frames] at hf
    rcases List.mem_map.mp hf with ⟨i, _, rfl⟩
    rfl

/-- Witness for C10: eater at (5,5) size 10 with target 0 remaining, moving
to (0,0) over 3 frames and growing over 6. -/
theorem move_phase_preserves_witness :
    (eat_anim_step 2 (fun _ => (0, 0)) 3 6 ⟨5, 5, 10, [0]⟩ 0).1 =
      move_frames ⟨5, 5, 10, [0]⟩ 0 0 3 ++
        grow_frames 0 0 10 2 ([0].erase 0) 6 ∧
    (∀ f ∈ move_frames ⟨5, 5, 10, [0]⟩ 0 0 3,
      f.size = 10 ∧ f.remaining = [0] ∧ 0 ∈ f.remaining) ∧
    (∀ f ∈ grow_frames 0 0 10 2 ([0].erase 0) 6,
      f.remaining = [0].erase 0) :=
  move_phase_preserves 2 (fun _ => (0, 0)) 3 6 ⟨5, 5, 10, [0]⟩ 0 (by decide)

end BallEating
